import Mathlib

/-!
Shallow embedding of the `ezweb` heuristic HTML-metadata extractor
(`src/ezweb/utils/souphelper.py` and `src/ezweb/utils/http.py`) together
with proofs settling the specification claims about it.

The HTML tree is modelled as a nested inductive `Node` mirroring the
BeautifulSoup element tree (elements with a tag name, an attribute map and
children, plus text nodes).  Python string primitives (`in`, `split`,
`strip`, negative indexing, `dict` comprehensions, stable `sorted`) are
embedded as executable Lean functions with the same semantics.
-/

namespace Ezweb

/-! ## Python string and container primitives -/

/-- Is the first list a prefix of the second (boolean test)? -/
def isPreB : List Char → List Char → Bool
  | [], _ => true
  | _ :: _, [] => false
  | p :: ps, c :: cs => p = c && isPreB ps cs

/-- Is the first list a contiguous sublist of the second (boolean test)? -/
def isInfB (sub : List Char) : List Char → Bool
  | [] => sub.isEmpty
  | c :: cs => isPreB sub (c :: cs) || isInfB sub cs

/-- Python `sub in s` substring test. -/
def pyIn (sub s : String) : Bool := isInfB sub.data s.data

/-- Remove `pre` from the front of `l`, or `none` when `pre` is not a prefix. -/
def dropPreQ : List Char → List Char → Option (List Char)
  | [], l => some l
  | _ :: _, [] => none
  | p :: ps, c :: cs => if p = c then dropPreQ ps cs else none

/-- Fuel-driven worker for `pySplit`: scans left to right, cutting at each
occurrence of the (nonempty) separator, exactly like Python `str.split(sep)`. -/
def splitAuxF (sep : List Char) : Nat → List Char → List Char → List (List Char)
  | _, [], acc => [acc.reverse]
  | 0, l, acc => [acc.reverse ++ l]
  | fuel + 1, c :: cs, acc =>
    match dropPreQ sep (c :: cs) with
    | some rest => acc.reverse :: splitAuxF sep fuel rest []
    | none => splitAuxF sep fuel cs (c :: acc)

/-- Python `s.split(sep)` for a nonempty separator `sep`. -/
def pySplit (s sep : String) : List String :=
  if sep = "" then [s]
  else (splitAuxF sep.data s.data.length s.data []).map List.asString

/-- Python `l[-1]`, as an `Option` (`none` models the `IndexError` on `[]`). -/
def pyNeg1 {α : Type} : List α → Option α
  | [] => none
  | [a] => some a
  | _ :: b :: bs => pyNeg1 (b :: bs)

/-- Worker for `pySetList`, keeping the first occurrence of each element. -/
def pySetAux (seen : List String) : List String → List String
  | [] => []
  | a :: l => if a ∈ seen then pySetAux seen l else a :: pySetAux (a :: seen) l

/-- Model of Python `list({...})` applied to a set comprehension: duplicates
are removed.  CPython's set iteration order is unspecified; the embedding
keeps the first occurrence, and no settled claim depends on that order. -/
def pySetList (l : List String) : List String := pySetAux [] l

/-- Python `str.strip()` on a character list (ASCII whitespace). -/
def stripL (l : List Char) : List Char :=
  ((l.dropWhile Char.isWhitespace).reverse.dropWhile Char.isWhitespace).reverse

/-- Python `str.strip()`. -/
def pyStrip (s : String) : String := (stripL s.data).asString

/-- Python `str.lower()` (ASCII folding, which agrees with Python on every
string this development compares). -/
def pyLower (s : String) : String := (s.data.map Char.toLower).asString

/-- Python `d[k] = v` on a dict kept as an insertion-ordered association
list: an existing key is overwritten in place, a new key is appended. -/
def dictInsert {α β : Type} [DecidableEq α]
    (d : List (α × β)) (k : α) (v : β) : List (α × β) :=
  if d.any (fun p => p.1 = k) then
    d.map (fun p => if p.1 = k then (k, v) else p)
  else d ++ [(k, v)]

/-- Python dict built from a sequence of key/value pairs (comprehension
semantics: later pairs with an equal key overwrite earlier ones). -/
def dictOf {α β : Type} [DecidableEq α] (ps : List (α × β)) : List (α × β) :=
  ps.foldl (fun d p => dictInsert d p.1 p.2) []

/-- Split a character list at every occurrence of one character. -/
def splitChar (sep : Char) : List Char → List (List Char)
  | [] => [[]]
  | c :: cs =>
    if c = sep then [] :: splitChar sep cs
    else
      match splitChar sep cs with
      | [] => [[c]]
      | l :: ls => (c :: l) :: ls

/-- Insert into a list sorted by `key`, before the first element of larger or
equal key: the insertion sort built on it is stable, like Python `sorted`. -/
def insertLe {α : Type} (key : α → Nat) (a : α) : List α → List α
  | [] => [a]
  | b :: bs => if key a ≤ key b then a :: b :: bs else b :: insertLe key a bs

/-- Stable sort by a `Nat` key: the model of Python `sorted(l, key=key)`. -/
def pySorted {α : Type} (key : α → Nat) : List α → List α
  | [] => []
  | a :: as => insertLe key a (pySorted key as)

/-! ## The HTML tree model (BeautifulSoup elements) -/

/-- A node of the parsed HTML tree: an element (tag name, attributes,
children in document order) or a text node (`NavigableString`). -/
inductive Node where
  | element (name : String) (attrs : List (String × String)) (children : List Node)
  | text (s : String)
deriving Repr

/-- Tag name of an element; `""` for text nodes. -/
def Node.nameOf : Node → String
  | .element n _ _ => n
  | .text _ => ""

/-- Attribute list of an element. -/
def Node.attrsOf : Node → List (String × String)
  | .element _ a _ => a
  | .text _ => []

/-- Children (`tag.contents`) of an element. -/
def Node.childrenOf : Node → List Node
  | .element _ _ cs => cs
  | .text _ => []

/-- Is this node an element (rather than a text node)? -/
def Node.isElem : Node → Bool
  | .element _ _ _ => true
  | .text _ => false

/-- Python `tag.get(attr)`: first binding of the attribute, if any. -/
def attrGet (attrs : List (String × String)) (attr : String) : Option String :=
  (attrs.find? (fun p => p.1 == attr)).map (fun p => p.2)

mutual
/-- All descendants of a node, in document (preorder) order — the order in
which BeautifulSoup's `find_all` and CSS `select` enumerate matches. -/
def descsN : Node → List Node
  | .text _ => []
  | .element _ _ cs => descsL cs

/-- All nodes of a forest together with their descendants, preorder. -/
def descsL : List Node → List Node
  | [] => []
  | c :: cs => c :: descsN c ++ descsL cs
end

mutual
/-- BeautifulSoup `tag.text`: concatenation of all descendant strings. -/
def textN : Node → String
  | .text s => s
  | .element _ _ cs => textL cs

/-- Concatenated text of a forest. -/
def textL : List Node → String
  | [] => ""
  | c :: cs => textN c ++ textL cs
end

/-- Does the node match tag name `name`? (Only elements can match.) -/
def isNamedElem (name : String) : Node → Bool
  | .element n _ _ => n == name
  | .text _ => false

/-- `find_all(name)` over an already-enumerated node list. -/
def findAllNamed (name : String) (ns : List Node) : List Node :=
  ns.filter (isNamedElem name)

/-- The `EzSoupHelper` state: the parsed tree (top-level forest) and the
page URL. -/
structure Helper where
  soup : List Node
  url : String

/-- `self.all(tag_name)`: all matching elements of the document. -/
def allTags (h : Helper) (name : String) : List Node :=
  findAllNamed name (descsL h.soup)

/-- `self.first(tag_name)`: first matching element of the document. -/
def firstTag (h : Helper) (name : String) : Option Node :=
  (allTags h name).head?

/-- Does the element carry attribute `attr` whose value contains `value` as
a substring (the CSS `[attr*="value"]` test)? -/
def attrContains (attr value : String) (n : Node) : Bool :=
  match attrGet n.attrsOf attr with
  | some v => pyIn value v
  | none => false

/-- `self.contains(tag_name, attr, value)`: the CSS query
`tag_name[attr*="value"]` over the document; `"*"` matches every element. -/
def cssContains (h : Helper) (tagName attr value : String) : List Node :=
  (descsL h.soup).filter (fun n =>
    (if tagName == "*" then n.isElem else isNamedElem tagName n)
      && attrContains attr value n)

/-! ## Collaborator text utilities -/

/-- Split a character list into maximal whitespace-free words. -/
def wordsOf : List Char → List Char → List (List Char)
  | [], acc => if acc.isEmpty then [] else [acc.reverse]
  | c :: cs, acc =>
    if c.isWhitespace then
      if acc.isEmpty then wordsOf cs [] else acc.reverse :: wordsOf cs []
    else wordsOf cs (c :: acc)

/-- Modelled from the spec: `CleanText` (`ezweb.utils.text.clean_text`, not
under `src/`) trims the string and collapses internal whitespace and
newlines; embedded as splitting into whitespace-separated words and
rejoining with single spaces. -/
def clean_text (s : String) : String :=
  " ".intercalate ((wordsOf s.data []).map List.asString)

/-- `self.tag_text(t)`: `None` when the tag has no text, else the cleaned
text (a BeautifulSoup `Tag` itself is always truthy). -/
def tag_text (t : Node) : Option String :=
  if textN t = "" then none else some (clean_text (textN t))

/-! ## Tabular-data extractor (`table_info`) -/

/-- `row.find_all("th")`: header cells among the row's descendants. -/
def thsOf (row : Node) : List Node := findAllNamed "th" (descsN row)

/-- `row.find_all("td")`: data cells among the row's descendants. -/
def tdsOf (row : Node) : List Node := findAllNamed "td" (descsN row)

/-- The key/value pairs generated for one row by the comprehension
`{tag_text(head): tag_text(cell) for cell in tds for head in ths}`, in
iteration order (cells outer, headers inner — the cross product). -/
def rowPairs (row : Node) : List (Option String × Option String) :=
  (tdsOf row).flatMap (fun cell =>
    (thsOf row).map (fun head => (tag_text head, tag_text cell)))

/-- The dict built for one row of the table. -/
def rowDict (row : Node) : List (Option String × Option String) :=
  dictOf (rowPairs row)

/-- `self.table_info`: the first `<table>`'s rows, each turned into a
header-text → cell-text dict by the cross-product comprehension. -/
def table_info (h : Helper) : List (List (Option String × Option String)) :=
  match firstTag h "table" with
  | none => []
  | some t =>
    let rows := findAllNamed "tr" (descsN t)
    if rows.isEmpty then [] else rows.map rowDict

/-! ## Topic/breadcrumb extractor (`possible_topic_tags`) -/

/-- `id_bread + class_bread`: elements whose `id` or `class` contains
`"breadcrumb"`. -/
def breads (h : Helper) : List Node :=
  cssContains h "*" "id" "breadcrumb" ++ cssContains h "*" "class" "breadcrumb"

/-- `class_cat`: `<div>` elements whose `class` contains `"cat"`. -/
def class_cat (h : Helper) : List Node := cssContains h "div" "class" "cat"

/-- `class_tagd`: `<div>` elements whose `class` contains `"tag"`. -/
def class_tagd (h : Helper) : List Node := cssContains h "div" "class" "tag"

/-- `class_maybe` after the noise guard: discarded entirely when more than 7
candidates matched. -/
def class_maybe (h : Helper) : List Node :=
  if (class_cat h ++ class_tagd h).length > 7 then []
  else class_cat h ++ class_tagd h

/-- All `<a>` descendants of the candidate containers, in container order
(the `for el in maybe_elements_containers: for a in el.find_all("a")` loop). -/
def container_a_tags (h : Helper) : List Node :=
  (breads h ++ class_maybe h).flatMap (fun el => findAllNamed "a" (descsN el))

/-- The `<a>` tags of the `<ul>` nested in the first `<article>`, if any. -/
def article_ul_a (h : Helper) : List Node :=
  match firstTag h "article" with
  | none => []
  | some art =>
    match (findAllNamed "ul" (descsN art)).head? with
    | none => []
    | some ul => findAllNamed "a" (descsN ul)

/-- `self.possible_topic_tags`: candidate topic/breadcrumb `<a>` tags. -/
def possible_topic_tags (h : Helper) : List Node :=
  container_a_tags h ++ article_ul_a h

/-- The `<a>` tags contributed by the breadcrumb-based containers alone. -/
def bread_a_tags (h : Helper) : List Node :=
  (breads h).flatMap (fun el => findAllNamed "a" (descsN el))

/-! ## Topic-name filter (`_ok_topic_name`) -/

/-- `self._bad_topic_names`: the `fa` list followed by the `en` list, as
produced by `itertools.chain.from_iterable` over the vocab dict values. -/
def bad_topic_names : List String :=
  ["فروشگاه", "خانه", "صفحه اصلی", "برگشت", "بازگشت",
   "home", "return", "back", "undo", "shop"]

/-- `self._ok_topic_name(name)`.  The fuzzy `similarity_of` collaborator and
the memoized `self.site_name` value are passed in as parameters (`sim`,
`site_name`). -/
def ok_topic_name (sim : String → String → Nat) (site_name : String)
    (name : String) : Bool :=
  let n := pyLower name
  if n = "" ∨ n.length > 26 then false
  else if n ∈ bad_topic_names then false
  else if n = site_name then false
  else if sim n site_name > 65 then false
  else true

/-! ## Address extractor (`address`) -/

/-- The footer class-name list of `address`. -/
def addr_classes : List String := ["address", "location", "contact"]

/-- The address-indicator keyword list of `address`. -/
def addr_words : List String :=
  ["آدرس", "نشانی", "شعبه", "خیابان", "کوچه", "پلاک",
   "بلوار", "میدان", "چهارراه", "طبقه", "تفاطع"]

/-- `_texts_of(tags)`: `list({clean_text(t.text) for t in tags if t.text})`. -/
def texts_of (tags : List Node) : List String :=
  pySetList ((tags.filter (fun t => textN t ≠ "")).map (fun t => clean_text (textN t)))

/-- `tags` of the class-based branch: for each class name, the CSS query
`footer[class*="c"]`, extended in order. -/
def footer_class_tags (h : Helper) : List Node :=
  addr_classes.flatMap (fun c => cssContains h "footer" "class" c)

/-- All text nodes among a node's descendants (`find_all(text=True)`). -/
def textNodes (n : Node) : List String :=
  (descsN n).filterMap (fun c =>
    match c with
    | .text s => some s
    | .element _ _ _ => none)

/-- The keyword-scan loop over the last footer: for the first keyword with a
matching text node, the first cleaned deduplicated text. -/
def footer_word_search (footer : Node) : Option String :=
  (addr_words.filterMap (fun w =>
    (pySetList (((textNodes footer).filter (fun t => pyIn w t)).map clean_text)).head?)).head?

/-- `self.address`.  `Except.error "IndexError"` embeds the uncaught Python
`IndexError` raised by `self.all("footer")[-1]` on a footer-less page.  The
guard `if not footer: return None` that follows it in the source is dead
code (a BeautifulSoup `Tag` is always truthy) and is embedded as such. -/
def address (h : Helper) : Except String (Option String) :=
  let ad_tags := allTags h "address"
  let step1 : Option String :=
    if ad_tags.isEmpty then none else (texts_of ad_tags).head?
  match step1 with
  | some t => Except.ok (some t)
  | none =>
    let tags := footer_class_tags h
    if ¬ tags.isEmpty then Except.ok ((texts_of tags).head?)
    else
      match pyNeg1 (allTags h "footer") with
      | none => Except.error "IndexError"
      | some footer => Except.ok (footer_word_search footer)

/-! ## FAQ extractor (`question_answer_from_text`) -/

/-- A question-mark-like character of the regex character class `[?؟]`. -/
def qmark (c : Char) : Bool := c = '?' || c = '؟'

/-- Split a line at its last question-mark-like character, if any.  This is
what one `re.findall` match of the greedy pattern `(.*)[?؟](.*)` yields on a
newline-free segment: the first `(.*)` swallows every earlier `?`. -/
def lastQmarkSplit : List Char → Option (List Char × List Char)
  | [] => none
  | c :: cs =>
    match lastQmarkSplit cs with
    | some (p, s) => some (c :: p, s)
    | none => if qmark c then some ([], cs) else none

/-- Python `s.replace("\n", "")` on a character list. -/
def removeNl (l : List Char) : List Char := l.filter (fun c => c ≠ '\n')

/-- The `_ok(k, v)` guard of `question_answer_from_text`. -/
def okQA (k v : List Char) : Bool :=
  ¬(k.isEmpty || (removeNl (stripL k)).isEmpty)
    && ¬(v.isEmpty || (removeNl (stripL v)).isEmpty)

/-- The `re.findall` matches of `(.*)[?؟](.*)` over the text: since `.` does
not match `\n`, one match per newline-separated segment that contains a
question-mark-like character, split at the last one. -/
def qa_matches (text : List Char) : List (List Char × List Char) :=
  (splitChar '\n' text).filterMap lastQmarkSplit

/-- `self.question_answer_from_text(text)`: the dict comprehension
`{k.strip(): v.strip() for k, v in matches if _ok(k, v)}`. -/
def question_answer_from_text (text : String) : List (String × String) :=
  dictOf ((qa_matches text.data).filterMap (fun p =>
    if okQA p.1 p.2 then some ((stripL p.1).asString, (stripL p.2).asString)
    else none))

/-! ## Structured-data extractor (`application_json`) -/

/-- All `<script type="application/ld+json">` elements, document order. -/
def scriptLdTags (h : Helper) : List Node :=
  (descsL h.soup).filter (fun n =>
    isNamedElem "script" n && attrGet n.attrsOf "type" == some "application/ld+json")

/-- The sort key `len(t.contents[0] if t.contents else [])`: the length of
the first content (a string's character count, a tag's child count), 0 when
there are no contents. -/
def contentKey (t : Node) : Nat :=
  match t.childrenOf.head? with
  | none => 0
  | some (.text s) => s.length
  | some (.element _ _ cs) => cs.length

/-- `sorted(all_json_tags, key=...)[-1]`: the selected script block. -/
def chosen_script (h : Helper) : Option Node :=
  pyNeg1 (pySorted contentKey (scriptLdTags h))

/-- `self.application_json`.  The Python-stdlib `json.loads` is embedded as
an abstract parser parameter `parse`; `parse s = none` models a
`json.JSONDecodeError` on malformed input, which the source does not catch,
so it is embedded as `Except.error "JSONDecodeError"`.  A first content that
is itself a tag would make `json.loads` raise a `TypeError`. -/
def application_json {J : Type} (parse : String → Option J) (h : Helper) :
    Except String (Option J) :=
  match chosen_script h with
  | none => Except.ok none
  | some t =>
    match t.childrenOf.head? with
    | none => Except.ok none
    | some (.element _ _ _) => Except.error "TypeError"
    | some (.text s) =>
      if s = "" then Except.ok none
      else
        match parse s with
        | none => Except.error "JSONDecodeError"
        | some j => Except.ok (some j)

/-! ## Link resolver (`absolute_href_of`) -/

/-- The `source` argument of `absolute_href_of`: a tag or a plain string. -/
inductive Source where
  | tag (t : Node)
  | str (s : String)

/-- Python truthiness of a `source` value: a BeautifulSoup `Tag` is always
truthy (`Tag.__bool__` returns `True`), a string is truthy iff nonempty. -/
def pyTruthySource : Source → Bool
  | .tag _ => true
  | .str s => s ≠ ""

/-- Python `"http" in source` for a `Tag`: membership in `tag.contents`,
true iff some direct child is the exact string `"http"`. -/
def hasDirectHttpChild (t : Node) : Bool :=
  t.childrenOf.any (fun c =>
    match c with
    | .text s => s == "http"
    | .element _ _ _ => false)

/-- The `link` read from a tag source: `href` for `<a>`/`<link>` tags
without a direct `"http"` text child, else `src` falling back to
`data-src`. -/
def tagLink (t : Node) : Option String :=
  if t.nameOf ∈ ["a", "link"] ∧ ¬ hasDirectHttpChild t then attrGet t.attrsOf "href"
  else
    match attrGet t.attrsOf "src" with
    | some v => some v
    | none => attrGet t.attrsOf "data-src"

/-- The remainder of `s` after the first occurrence of `sep`, if any. -/
def afterFirst (s sep : String) : Option String :=
  match pySplit s sep with
  | [] => none
  | [_] => none
  | _ :: rest => some (sep.intercalate rest)

/-- Modelled from Python stdlib `urllib.parse.urlparse(url).netloc` for the
URL shapes the helper receives: the part after the first `"://"` up to the
next `/`, `?` or `#`; empty when the URL has no `"://"`. -/
def netloc (url : String) : String :=
  match afterFirst url "://" with
  | none => ""
  | some rest =>
    (rest.data.takeWhile (fun c => c ≠ '/' && c ≠ '?' && c ≠ '#')).asString

/-- Python `s.replace(pat, rep)` (every occurrence), via split and rejoin. -/
def pyReplace (s pat rep : String) : String := rep.intercalate (pySplit s pat)

/-- `self.absolute_href_of(source, should_be_internal)`. -/
def absolute_href_of (h : Helper) (source : Source)
    (should_be_internal : Bool) : Option String :=
  if ¬ pyTruthySource source then none
  else
    let link : Option String :=
      match source with
      | .tag t => tagLink t
      | .str _ => none
    match link with
    | none => none
    | some l =>
      if l = "" then none
      else
        let root_domain := pyReplace (netloc h.url) "www." ""
        let root := "https://" ++ root_domain
        if pyIn "http" l then
          if should_be_internal then
            if pyReplace (netloc l) "www." "" = root_domain then some l else none
          else some l
        else
          if l.data.headD ' ' ≠ '/' then none
          else some (root ++ l)

/-! ## URL utilities (`http.py`) -/

/-- The shared prefix-stripping step of `is_url_root` and `url_spliter`:
`url.split("https://")[1]`, falling back to `url.split("http://")[1]` on
`IndexError`; `none` when the fallback raises `IndexError` too (uncaught in
the source). -/
def httpRemainder (url : String) : Option String :=
  match (pySplit url "https://").get? 1 with
  | some u => some u
  | none => (pySplit url "http://").get? 1

/-- `is_url_root(url)`: `Except.error` embeds the Python exceptions (the
explicit `Exception` for inputs without `"http"`, and the uncaught
`IndexError` of the fallback split). -/
def is_url_root (url : String) : Except String Bool :=
  if pyIn "http" url then
    match httpRemainder url with
    | none => Except.error "IndexError"
    | some u =>
      match (pySplit u "/").get? 1 with
      | none => Except.ok true
      | some seg => Except.ok (seg == "")
  else Except.error (url ++ " Must be an http/https pattern")

/-- The two result shapes of `url_spliter`: the `(root, children)` tuple or
the bare `children` list. -/
inductive SplitResult where
  | pair (host : String) (segments : List String)
  | segs (segments : List String)
deriving Repr, DecidableEq

/-- Python `value == True` where `value` is a `str`: always `False` (no
implicit coercion between `str` and `bool`). -/
def pyStrEqTrue (s : String) : Bool := false

/-- The tail of `url_spliter` after the prefix strip: the local `root` is
rebound to `url.split("/")[0]` (shadowing the boolean parameter), so the
`root == True` test compares a string with `True`. -/
def splitCore (u : String) : SplitResult :=
  let host := (pySplit u "/").headD ""
  let children := (pySplit u "/").tail
  if pyStrEqTrue host then SplitResult.pair host children
  else SplitResult.segs children

/-- `url_spliter(url, root)`: the boolean parameter is shadowed before its
only read, and the prefix strip can raise an uncaught `IndexError`. -/
def url_spliter (url : String) (root : Bool) : Except String SplitResult :=
  if pyIn "http" url then
    match httpRemainder url with
    | none => Except.error "IndexError"
    | some u => Except.ok (splitCore u)
  else Except.ok (splitCore url)

/-! ## Concrete documents used to instantiate and refute the claims -/

/-- A document whose only JSON-LD block holds malformed JSON. -/
def c1doc : Helper :=
  ⟨[Node.element "script" [("type", "application/ld+json")] [Node.text "not json"]], "u"⟩

/-- A document with no footer and no address text anywhere. -/
def c2doc : Helper :=
  ⟨[Node.element "html" [] [Node.element "body" [] [Node.text "hi"]]], "u"⟩

/-- A document with two JSON-LD blocks of equal raw length. -/
def c5doc : Helper :=
  ⟨[Node.element "script" [("type", "application/ld+json")] [Node.text "[1]"],
    Node.element "script" [("type", "application/ld+json")] [Node.text "[2]"]], "u"⟩

/-- A document with one table row holding 2 headers and 3 data cells. -/
def c7doc : Helper :=
  ⟨[Node.element "table" [] [
    Node.element "tr" [] [
      Node.element "th" [] [Node.text "H1"],
      Node.element "th" [] [Node.text "H2"],
      Node.element "td" [] [Node.text "D1"],
      Node.element "td" [] [Node.text "D2"],
      Node.element "td" [] [Node.text "D3"]]]], "u"⟩

/-- A page at an `http://` (not `https://`) URL. -/
def c8doc : Helper := ⟨[], "http://example.com/page"⟩

/-- An anchor with the relative reference `/a/b`. -/
def c8anchor : Node := Node.element "a" [("href", "/a/b")] []

/-- A document with one breadcrumb container and 8 `cat`-class divs. -/
def c9doc : Helper :=
  ⟨[Node.element "body" []
    ([Node.element "div" [("class", "breadcrumb")]
        [Node.element "a" [("href", "/c")] [Node.text "Cat"]]] ++
     List.replicate 8
       (Node.element "div" [("class", "cat-x")]
         [Node.element "a" [] [Node.text "T"]]))], "u"⟩

/-- A host document for the string-source resolver calls. -/
def c10doc : Helper := ⟨[], "https://example.com/page"⟩

/-! ## General lemmas -/

theorem nodup_subset_length {α : Type} [DecidableEq α] {l1 l2 : List α}
    (h : l1.Nodup) (hs : l1 ⊆ l2) : l1.length ≤ l2.length := by
  calc l1.length = l1.toFinset.card := (List.toFinset_card_of_nodup h).symm
    _ ≤ l2.toFinset.card :=
      Finset.card_le_card (fun x hx =>
        List.mem_toFinset.mpr (hs (List.mem_toFinset.mp hx)))
    _ ≤ l2.length := l2.toFinset_card_le

theorem filter_or_length_le {α : Type} (p q : α → Bool) (l : List α) :
    (l.filter (fun x => p x || q x)).length ≤
      (l.filter p).length + (l.filter q).length := by
  induction l with
  | nil => simp
  | cons a l ih =>
    by_cases hp : p a <;> by_cases hq : q a <;>
      simp [List.filter_cons, hp, hq] <;> omega

theorem filter_nil_of_imp {α : Type} {p q : α → Bool} {l : List α}
    (himp : ∀ x, q x = true → p x = true) (h : l.filter p = []) :
    l.filter q = [] := by
  rw [List.filter_eq_nil_iff] at h ⊢
  exact fun a ha hq => h a ha (himp a hq)

theorem pyNeg1_cons {α : Type} (a : α) {l : List α} (h : l ≠ []) :
    pyNeg1 (a :: l) = pyNeg1 l := by
  cases l with
  | nil => exact absurd rfl h
  | cons b bs => rfl

theorem insertLe_ne_nil {α : Type} (key : α → Nat) (a : α) (l : List α) :
    insertLe key a l ≠ [] := by
  cases l with
  | nil => simp [insertLe]
  | cons b bs => simp only [insertLe]; split <;> simp

theorem mem_insertLe {α : Type} (key : α → Nat) (a x : α) (l : List α) :
    x ∈ insertLe key a l ↔ x = a ∨ x ∈ l := by
  induction l with
  | nil => simp [insertLe]
  | cons b bs ih =>
    simp only [insertLe]
    split <;> simp [ih, List.mem_cons] <;> tauto

theorem mem_pySorted {α : Type} (key : α → Nat) (x : α) (l : List α) :
    x ∈ pySorted key l ↔ x ∈ l := by
  induction l with
  | nil => simp [pySorted]
  | cons a as ih => simp [pySorted, mem_insertLe, ih]

theorem pyNeg1_insertLe_of_lt {α : Type} (key : α → Nat) (a : α) {l : List α}
    (h : ∀ b ∈ l, key b < key a) : pyNeg1 (insertLe key a l) = some a := by
  induction l with
  | nil => rfl
  | cons b bs ih =>
    have hb : key b < key a := h b (by simp)
    have hle : ¬ key a ≤ key b := by omega
    simp only [insertLe, if_neg hle]
    rw [pyNeg1_cons b (insertLe_ne_nil key a bs)]
    exact ih (fun x hx => h x (by simp [hx]))

theorem pyNeg1_insertLe_of_le {α : Type} (key : α → Nat) (a : α) {l : List α}
    (h : ∃ b ∈ l, key a ≤ key b) : pyNeg1 (insertLe key a l) = pyNeg1 l := by
  induction l with
  | nil =>
    obtain ⟨b, hb, _⟩ := h
    simp at hb
  | cons b bs ih =>
    by_cases hab : key a ≤ key b
    · simp only [insertLe, if_pos hab]
      exact pyNeg1_cons a (by simp)
    · simp only [insertLe, if_neg hab]
      have hbs : ∃ c ∈ bs, key a ≤ key c := by
        obtain ⟨c, hc, hkc⟩ := h
        rcases List.mem_cons.mp hc with rfl | hmem
        · exact absurd hkc hab
        · exact ⟨c, hmem, hkc⟩
      have hbsne : bs ≠ [] := by
        obtain ⟨c, hc, _⟩ := hbs
        exact List.ne_nil_of_mem hc
      rw [pyNeg1_cons b (insertLe_ne_nil key a bs), ih hbs,
        pyNeg1_cons b hbsne]

theorem selected_spec {α : Type} (key : α → Nat) (l : List α) (h : l ≠ []) :
    ∃ x l₁ l₂, pyNeg1 (pySorted key l) = some x ∧ l = l₁ ++ x :: l₂ ∧
      (∀ y ∈ l₁, key y ≤ key x) ∧ (∀ y ∈ l₂, key y < key x) := by
  induction l with
  | nil => exact absurd rfl h
  | cons a as ih =>
    cases as with
    | nil => exact ⟨a, [], [], rfl, by simp, by simp, by simp⟩
    | cons a' as' =>
      obtain ⟨x, l₁, l₂, hsel, hdec, h₁, h₂⟩ := ih (by simp)
      by_cases hax : key a ≤ key x
      · have hx_mem : x ∈ pySorted key (a' :: as') := by
          rw [mem_pySorted, hdec]
          exact List.mem_append_right _ (by simp)
        refine ⟨x, a :: l₁, l₂, ?_, by simp [hdec], ?_, h₂⟩
        · show pyNeg1 (insertLe key a (pySorted key (a' :: as'))) = some x
          rw [pyNeg1_insertLe_of_le key a ⟨x, hx_mem, hax⟩, hsel]
        · intro y hy
          rcases List.mem_cons.mp hy with rfl | hy'
          · exact hax
          · exact h₁ y hy'
      · have hlt : key x < key a := by omega
        have hall : ∀ y ∈ (a' :: as'), key y < key a := by
          intro y hy
          rw [hdec] at hy
          rcases List.mem_append.mp hy with hy1 | hy2
          · exact lt_of_le_of_lt (h₁ y hy1) hlt
          · rcases List.mem_cons.mp hy2 with rfl | hy3
            · exact hlt
            · exact lt_trans (h₂ y hy3) hlt
        refine ⟨a, [], a' :: as', ?_, by simp, by simp, hall⟩
        show pyNeg1 (insertLe key a (pySorted key (a' :: as'))) = some a
        exact pyNeg1_insertLe_of_lt key a
          (fun b hb => hall b ((mem_pySorted ..).mp hb))

/-! ## Dict lemmas -/

theorem mem_dictInsert {α β : Type} [DecidableEq α] {d : List (α × β)} {k : α}
    {v : β} {p : α × β} (hp : p ∈ dictInsert d k v) :
    p = (k, v) ∨ (p ∈ d ∧ p.1 ≠ k) := by
  unfold dictInsert at hp
  split at hp
  · next hany =>
    obtain ⟨q, hq, hqe⟩ := List.mem_map.mp hp
    by_cases hqk : q.1 = k
    · rw [if_pos hqk] at hqe
      left
      exact hqe.symm
    · rw [if_neg hqk] at hqe
      right
      exact ⟨hqe ▸ hq, hqe ▸ hqk⟩
  · next hany =>
    rcases List.mem_append.mp hp with hd | hs
    · right
      refine ⟨hd, fun hk => hany ?_⟩
      exact List.any_eq_true.mpr ⟨p, hd, by simp [hk]⟩
    · left
      simpa using hs

theorem dictInsert_keys {α β : Type} [DecidableEq α]
    (d : List (α × β)) (k : α) (v : β) :
    (dictInsert d k v).map Prod.fst = d.map Prod.fst ∨
      ((dictInsert d k v).map Prod.fst = d.map Prod.fst ++ [k] ∧
        k ∉ d.map Prod.fst) := by
  unfold dictInsert
  split
  · next hany =>
    left
    rw [List.map_map]
    apply List.map_congr_left
    intro p _
    by_cases hpk : p.1 = k
    · simp [hpk]
    · simp [hpk]
  · next hany =>
    right
    refine ⟨by simp, fun hmem => hany ?_⟩
    obtain ⟨r, hr, hre⟩ := List.mem_map.mp hmem
    exact List.any_eq_true.mpr ⟨r, hr, by simp [hre]⟩

theorem dictFold_keys_sub {α β : Type} [DecidableEq α] (ps : List (α × β)) :
    ∀ (d : List (α × β)) (p : α × β),
      p ∈ ps.foldl (fun d q => dictInsert d q.1 q.2) d →
      p.1 ∈ d.map Prod.fst ∨ p.1 ∈ ps.map Prod.fst := by
  induction ps with
  | nil =>
    intro d p hp
    left
    exact List.mem_map.mpr ⟨p, hp, rfl⟩
  | cons q ps ih =>
    intro d p hp
    rw [List.foldl_cons] at hp
    rcases ih (dictInsert d q.1 q.2) p hp with hk | hk
    · obtain ⟨r, hr, hre⟩ := List.mem_map.mp hk
      rcases mem_dictInsert hr with rfl | ⟨hrd, _⟩
      · right
        rw [← hre]
        simp
      · left
        exact hre ▸ List.mem_map.mpr ⟨r, hrd, rfl⟩
    · right
      simp [hk]

theorem dictFold_keys_nodup {α β : Type} [DecidableEq α] (ps : List (α × β)) :
    ∀ d : List (α × β), (d.map Prod.fst).Nodup →
      ((ps.foldl (fun d q => dictInsert d q.1 q.2) d).map Prod.fst).Nodup := by
  induction ps with
  | nil => exact fun d hd => hd
  | cons q ps ih =>
    intro d hd
    rw [List.foldl_cons]
    apply ih
    rcases dictInsert_keys d q.1 q.2 with he | ⟨he, hnot⟩
    · rw [he]; exact hd
    · rw [he]
      refine List.nodup_append.mpr ⟨hd, List.nodup_singleton _, ?_⟩
      intro a ha hb
      rw [List.mem_singleton] at hb
      exact hnot (hb ▸ ha)

theorem dictFold_values {α β : Type} [DecidableEq α] (v : β) (ps : List (α × β)) :
    ∀ d : List (α × β), (∀ q ∈ ps, q.2 = v) →
      (∀ p ∈ d, p.1 ∈ ps.map Prod.fst ∨ p.2 = v) →
      ∀ p ∈ ps.foldl (fun d q => dictInsert d q.1 q.2) d, p.2 = v := by
  induction ps with
  | nil =>
    intro d _ hd p hp
    rcases hd p hp with h | h
    · simp at h
    · exact h
  | cons q ps ih =>
    intro d hps hd p hp
    rw [List.foldl_cons] at hp
    refine ih (dictInsert d q.1 q.2) (fun r hr => hps r (by simp [hr])) ?_ p hp
    intro r hr
    rcases mem_dictInsert hr with rfl | ⟨hrd, hrk⟩
    · right
      exact hps q (by simp)
    · rcases hd r hrd with hk | hv
      · rw [List.map_cons] at hk
        rcases List.mem_cons.mp hk with he | hm
        · exact absurd he hrk
        · left
          exact hm
      · right
        exact hv

/-! ## Row-dict lemmas for the tabular extractor -/

theorem crossPairs_fst {ths tds : List Node} {x : Option String}
    (hx : x ∈ (tds.flatMap (fun cell =>
      ths.map (fun head => (tag_text head, tag_text cell)))).map Prod.fst) :
    x ∈ ths.map tag_text := by
  obtain ⟨q, hq, hqe⟩ := List.mem_map.mp hx
  obtain ⟨cell, _, hq2⟩ := List.mem_flatMap.mp hq
  obtain ⟨head, hhead, hq3⟩ := List.mem_map.mp hq2
  rw [← hqe, ← hq3]
  exact List.mem_map.mpr ⟨head, hhead, rfl⟩

theorem rowDict_length_le (row : Node) :
    (rowDict row).length ≤ (thsOf row).length := by
  have hkeys : ∀ p ∈ rowDict row, p.1 ∈ (thsOf row).map tag_text := by
    intro p hp
    rcases dictFold_keys_sub (rowPairs row) [] p hp with hk | hk
    · simp at hk
    · exact crossPairs_fst hk
  have hnodup : ((rowDict row).map Prod.fst).Nodup :=
    dictFold_keys_nodup (rowPairs row) [] (by simp)
  have hsub : (rowDict row).map Prod.fst ⊆ (thsOf row).map tag_text := by
    intro x hx
    obtain ⟨p, hp, hpe⟩ := List.mem_map.mp hx
    exact hpe ▸ hkeys p hp
  calc (rowDict row).length
      = ((rowDict row).map Prod.fst).length := (List.length_map ..).symm
    _ ≤ ((thsOf row).map tag_text).length := nodup_subset_length hnodup hsub
    _ = (thsOf row).length := List.length_map ..

theorem rowDict_values (row : Node) {p : Option String × Option String}
    (hp : p ∈ rowDict row) :
    ∃ c, (tdsOf row).getLast? = some c ∧ p.2 = tag_text c := by
  rcases List.eq_nil_or_concat (tdsOf row) with hnil | ⟨tds', c, hc⟩
  · rw [rowDict, rowPairs, hnil] at hp
    simp [dictOf] at hp
  · rw [List.concat_eq_append] at hc
    refine ⟨c, by rw [hc]; exact List.getLast?_concat _, ?_⟩
    have hpairs : rowPairs row =
        tds'.flatMap (fun cell =>
          (thsOf row).map (fun head => (tag_text head, tag_text cell))) ++
        (thsOf row).map (fun head => (tag_text head, tag_text c)) := by
      rw [rowPairs, hc, List.flatMap_append]
      simp
    have hfold : rowDict row =
        ((thsOf row).map (fun head => (tag_text head, tag_text c))).foldl
          (fun d q => dictInsert d q.1 q.2)
          (dictOf (tds'.flatMap (fun cell =>
            (thsOf row).map (fun head => (tag_text head, tag_text cell))))) := by
      rw [rowDict, hpairs, dictOf, dictOf, List.foldl_append]
    rw [hfold] at hp
    refine dictFold_values (tag_text c) _ _ ?_ ?_ p hp
    · intro q hq
      obtain ⟨head, _, hqe⟩ := List.mem_map.mp hq
      rw [← hqe]
    · intro r hr
      rcases dictFold_keys_sub _ [] r hr with hk | hk
      · simp at hk
      · left
        have hth : r.1 ∈ (thsOf row).map tag_text := crossPairs_fst hk
        rw [List.map_map]
        simpa using hth

/-! ## FAQ split lemmas -/

theorem splitChar_of_no_sep {sep : Char} {l : List Char}
    (h : ∀ c ∈ l, c ≠ sep) : splitChar sep l = [l] := by
  induction l with
  | nil => rfl
  | cons c cs ih =>
    have hc : ¬ c = sep := h c (by simp)
    have hrec := ih (fun x hx => h x (by simp [hx]))
    simp only [splitChar, if_neg hc, hrec]

theorem lastQmarkSplit_of_no_qmark {l : List Char}
    (h : ∀ c ∈ l, qmark c = false) : lastQmarkSplit l = none := by
  induction l with
  | nil => rfl
  | cons c cs ih =>
    have hrec := ih (fun x hx => h x (by simp [hx]))
    have hc := h c (by simp)
    simp [lastQmarkSplit, hrec, hc]

theorem lastQmarkSplit_append {q : Char} (hq : qmark q = true) {s : List Char}
    (hs : ∀ c ∈ s, qmark c = false) (p : List Char) :
    lastQmarkSplit (p ++ q :: s) = some (p, s) := by
  induction p with
  | nil =>
    simp [lastQmarkSplit, lastQmarkSplit_of_no_qmark hs, hq]
  | cons c p ih =>
    have hstep : lastQmarkSplit (c :: (p ++ q :: s)) =
        match lastQmarkSplit (p ++ q :: s) with
        | some (a, b) => some (c :: a, b)
        | none => if qmark c = true then some ([], p ++ q :: s) else none := rfl
    rw [List.cons_append, hstep, ih]

/-! ## URL splitter lemma -/

theorem splitCore_segs (u : String) :
    splitCore u = SplitResult.segs ((pySplit u "/").tail) := by
  simp [splitCore, pyStrEqTrue]

/-! ## Claim theorems -/

/-- C1 (counterexample): on a document whose only (hence largest) JSON-LD
block is malformed — the parse oracle rejects it — `application_json`
raises a `JSONDecodeError` instead of returning the absent result the
claim demands. -/
theorem application_json_malformed_cx :
    application_json (J := Unit) (fun _ => none) c1doc =
        Except.error "JSONDecodeError" ∧
      Except.error "JSONDecodeError" ≠
        (Except.ok none : Except String (Option Unit)) := by
  refine ⟨rfl, fun hcontra => ?_⟩
  simp at hcontra

/-- C1 (amended): when the selected JSON-LD block's body fails to parse,
`application_json` raises the parse error (it does not return an absent
result); the absent result arises only when no JSON-LD block exists at
all (or the selected block has an empty body). -/
theorem application_json_parse_failure {J : Type}
    (parse : String → Option J) (h : Helper) :
    (scriptLdTags h = [] → application_json parse h = Except.ok none) ∧
    (∀ t s, chosen_script h = some t →
      t.childrenOf.head? = some (Node.text s) → s ≠ "" → parse s = none →
      application_json parse h = Except.error "JSONDecodeError") := by
  constructor
  · intro hnil
    unfold application_json chosen_script
    rw [hnil]
    rfl
  · intro t s hch hhd hs hpar
    simp only [application_json, hch, hhd, hpar, if_neg hs]

/-- C1 (witness): the amended theorem applied to the concrete malformed
document. -/
theorem application_json_parse_failure_w :
    application_json (J := Unit) (fun _ => none) c1doc =
      Except.error "JSONDecodeError" :=
  (application_json_parse_failure (fun _ => none) c1doc).2
    (Node.element "script" [("type", "application/ld+json")] [Node.text "not json"])
    "not json" rfl rfl (by decide) rfl

/-- C3 (counterexample): on the http/https URL
`https://example.com/a/b`, `url_spliter` returns only the bare segment
list, not the `(host, segments)` pair the claim demands; and on the
non-http input `ftp://example.com/a` it returns normally instead of
raising. -/
theorem url_spliter_pair_cx :
    url_spliter "https://example.com/a/b" false ≠
        Except.ok (SplitResult.pair "example.com" ["a", "b"]) ∧
      url_spliter "https://example.com/a/b" false =
        Except.ok (SplitResult.segs ["a", "b"]) ∧
      url_spliter "ftp://example.com/a" false =
        Except.ok (SplitResult.segs ["", "example.com", "a"]) := by
  refine ⟨fun hcontra => ?_, rfl, rfl⟩
  rw [show url_spliter "https://example.com/a/b" false =
      Except.ok (SplitResult.segs ["a", "b"]) from rfl] at hcontra
  simp at hcontra

/-- C3 (amended): `url_spliter` never returns the `(host, segments)` pair
(the guarding comparison tests a string against the boolean `True`, which
is always false in Python), and it does not raise on inputs that lack the
substring `"http"` — it splits the raw string; only `is_url_root` raises
its explicit error on such inputs. -/
theorem url_spliter_never_pair (url : String) (b : Bool) :
    (∀ host segs,
      url_spliter url b ≠ Except.ok (SplitResult.pair host segs)) ∧
    (pyIn "http" url = false →
      url_spliter url b =
        Except.ok (SplitResult.segs ((pySplit url "/").tail)) ∧
      is_url_root url =
        Except.error (url ++ " Must be an http/https pattern")) := by
  constructor
  · intro host segs
    unfold url_spliter
    split
    · cases hrem : httpRemainder url with
      | none => simp
      | some u => simp [hrem, splitCore_segs]
    · simp [splitCore_segs]
  · intro hno
    refine ⟨?_, ?_⟩
    · unfold url_spliter
      rw [if_neg (by simp [hno]), splitCore_segs]
    · unfold is_url_root
      rw [if_neg (by simp [hno])]

/-- C3 (witness): the amended theorem applied to the concrete non-http
input `ftp://example.com/a`. -/
theorem url_spliter_never_pair_w :
    pyIn "http" "ftp://example.com/a" = false ∧
      url_spliter "ftp://example.com/a" true =
        Except.ok (SplitResult.segs ((pySplit "ftp://example.com/a" "/").tail)) ∧
      is_url_root "ftp://example.com/a" =
        Except.error ("ftp://example.com/a" ++ " Must be an http/https pattern") :=
  ⟨by decide, (url_spliter_never_pair "ftp://example.com/a" true).2 (by decide)⟩

/-- C4 (counterexample): on `"A?B?C"` the FAQ splitter cuts at the last
question mark — question `"A?B"`, answer `"C"` — not at the first as the
claim demands (which would give question `"A"`, answer `"B?C"`). -/
theorem question_answer_last_cx :
    question_answer_from_text "A?B?C" = [("A?B", "C")] ∧
      question_answer_from_text "A?B?C" ≠ [("A", "B?C")] := by
  refine ⟨rfl, fun hcontra => ?_⟩
  rw [show question_answer_from_text "A?B?C" = [("A?B", "C")] from rfl] at hcontra
  simp at hcontra

/-- C4 (amended): on a newline-free text whose suffix after the LAST
question-mark-like character contains no further question mark,
`question_answer_from_text` yields exactly the pair of trimmed question
and answer parts, provided both are non-empty after trimming; the split
point is the last question-mark-like character, not the first. -/
theorem question_answer_splits_last (p s : String) (q : Char)
    (hq : qmark q = true) (hs : ∀ c ∈ s.data, qmark c = false)
    (hpn : ∀ c ∈ p.data, c ≠ '\n') (hsn : ∀ c ∈ s.data, c ≠ '\n')
    (hp2 : removeNl (stripL p.data) ≠ []) (hs2 : removeNl (stripL s.data) ≠ []) :
    question_answer_from_text (p ++ q.toString ++ s) =
      [((stripL p.data).asString, (stripL s.data).asString)] := by
  have hqn : q ≠ '\n' := by
    intro he
    rw [he] at hq
    simp [qmark] at hq
  have hdata : (p ++ q.toString ++ s).data = p.data ++ q :: s.data := by
    rw [String.data_append, String.data_append,
      show q.toString.data = [q] from rfl, List.append_assoc]
    rfl
  have hall : ∀ c ∈ (p ++ q.toString ++ s).data, c ≠ '\n' := by
    rw [hdata]
    intro c hc
    rcases List.mem_append.mp hc with hc1 | hc2
    · exact hpn c hc1
    · rcases List.mem_cons.mp hc2 with rfl | hc3
      · exact hqn
      · exact hsn c hc3
  have hpne : p.data ≠ [] := by
    intro he
    rw [he] at hp2
    exact hp2 rfl
  have hsne : s.data ≠ [] := by
    intro he
    rw [he] at hs2
    exact hs2 rfl
  have hok : okQA p.data s.data = true := by
    unfold okQA
    simp [List.isEmpty_iff, hpne, hsne, hp2, hs2]
  have hall' : ∀ c ∈ p.data ++ q :: s.data, c ≠ '\n' := by
    rw [← hdata]
    exact hall
  unfold question_answer_from_text qa_matches
  rw [hdata, splitChar_of_no_sep hall', List.filterMap_cons,
    lastQmarkSplit_append hq hs p.data]
  simp only [List.filterMap_nil, List.filterMap_cons, hok, if_pos]
  simp [dictOf, dictInsert]

/-- C4 (witness): the amended theorem at the spec's own example
`"What time?Answer here"`. -/
theorem question_answer_splits_last_w :
    question_answer_from_text ("What time" ++ '?'.toString ++ "Answer here") =
      [((stripL "What time".data).asString, (stripL "Answer here".data).asString)] :=
  question_answer_splits_last "What time" "Answer here" '?' (by decide)
    (by decide) (by decide) (by decide) (by decide) (by decide)

/-- C5 (counterexample): with two JSON-LD blocks of equal raw length
(`"[1]"` first, `"[2]"` second), `application_json` parses the
last-encountered block, not the first-encountered one the claim demands. -/
theorem application_json_tie_cx :
    application_json (fun s => some s) c5doc = Except.ok (some "[2]") ∧
      application_json (fun s => some s) c5doc ≠ Except.ok (some "[1]") := by
  refine ⟨rfl, fun hcontra => ?_⟩
  rw [show application_json (fun s => some s) c5doc =
      Except.ok (some "[2]") from rfl] at hcontra
  simp at hcontra

/-- C5 (amended): `chosen_script` (the block `application_json` parses)
is a block of maximal raw content length; when several blocks tie for the
maximum, the LAST-encountered one is selected (everything after the
selected block in document order is strictly shorter). -/
theorem chosen_script_longest_last (h : Helper) (hne : scriptLdTags h ≠ []) :
    ∃ t l₁ l₂, chosen_script h = some t ∧ scriptLdTags h = l₁ ++ t :: l₂ ∧
      (∀ u ∈ l₁, contentKey u ≤ contentKey t) ∧
      (∀ u ∈ l₂, contentKey u < contentKey t) := by
  unfold chosen_script
  exact selected_spec contentKey (scriptLdTags h) hne

/-- C5 (witness): the amended theorem applied to the concrete tied
document. -/
theorem chosen_script_longest_last_w :
    ∃ t l₁ l₂, chosen_script c5doc = some t ∧
      scriptLdTags c5doc = l₁ ++ t :: l₂ ∧
      (∀ u ∈ l₁, contentKey u ≤ contentKey t) ∧
      (∀ u ∈ l₂, contentKey u < contentKey t) :=
  chosen_script_longest_last c5doc (by
    rw [show scriptLdTags c5doc =
      [Node.element "script" [("type", "application/ld+json")] [Node.text "[1]"],
       Node.element "script" [("type", "application/ld+json")] [Node.text "[2]"]]
      from rfl]
    exact List.cons_ne_nil _ _)

/-- C6 (counterexample): a candidate whose similarity to the site name is
exactly 65 is ACCEPTED by the topic filter (the source tests `sim > 65`),
contradicting the claim that similarity ≥ 65 is rejected. -/
theorem ok_topic_name_sim65_cx :
    (65 : Nat) ≥ 65 ∧ ok_topic_name (fun _ _ => 65) "xyz" "abc" = true :=
  ⟨le_refl 65, by decide⟩

/-- C6 (amended): the topic filter rejects a candidate exactly when its
lowercased form is empty, longer than 26 characters, a member of the
stop-word list, equal to the Site Identity result, or has similarity
STRICTLY GREATER than 65 to the Site Identity result; similarity exactly
65 passes the similarity check. -/
theorem ok_topic_name_iff (sim : String → String → Nat)
    (site_name name : String) :
    ok_topic_name sim site_name name = false ↔
      (pyLower name = "" ∨ (pyLower name).length > 26 ∨
        pyLower name ∈ bad_topic_names ∨ pyLower name = site_name ∨
        sim (pyLower name) site_name > 65) := by
  simp only [ok_topic_name]
  split_ifs with h1 h2 h3 h4 <;> simp_all <;> tauto

/-- C10: a plain (non-`Tag`) string source never resolves: for every
non-empty string and either flag value, `absolute_href_of` returns the
absent result. -/
theorem absolute_href_str_none (h : Helper) (s : String) (b : Bool)
    (hs : s ≠ "") : absolute_href_of h (Source.str s) b = none := by
  simp [absolute_href_of, pyTruthySource, hs]

/-- C10 (witness): the theorem at the concrete string `"#section"` for
both flag values. -/
theorem absolute_href_str_none_w :
    ("#section" : String) ≠ "" ∧
      absolute_href_of c10doc (Source.str "#section") false = none ∧
      absolute_href_of c10doc (Source.str "#section") true = none :=
  ⟨by decide, absolute_href_str_none c10doc "#section" false (by decide),
    absolute_href_str_none c10doc "#section" true (by decide)⟩

/-- C2: on a document with no `<footer>` element in which neither the
`<address>` branch nor the footer-class branch yields a result, `address`
raises an `IndexError` at `self.all("footer")[-1]` — the dead guard
`if not footer: return None` right after it documents that an absent
result was intended, so this is a defect in the code, not in the claim. -/
theorem address_no_footer_raises (h : Helper)
    (h1 : allTags h "footer" = []) (h2 : texts_of (allTags h "address") = []) :
    address h = Except.error "IndexError" := by
  have hcss : ∀ c : String, cssContains h "footer" "class" c = [] := by
    intro c
    unfold cssContains
    refine filter_nil_of_imp ?_ h1
    intro n hn
    rw [Bool.and_eq_true] at hn
    simpa using hn.1
  have hfc : footer_class_tags h = [] := by
    unfold footer_class_tags
    simp [hcss]
  have hstep1 : (if (allTags h "address").isEmpty then (none : Option String)
      else (texts_of (allTags h "address")).head?) = none := by
    rw [h2]
    split <;> rfl
  simp [address, hstep1, hfc, h1, pyNeg1]

/-- C2 (witness): the theorem applied to a concrete footer-less
document. -/
theorem address_no_footer_raises_w : address c2doc = Except.error "IndexError" :=
  address_no_footer_raises c2doc rfl rfl

/-- C7: every row mapping produced by the tabular extractor is the dict of
a row's header×data cross product; it has at most as many keys as the row
has `<th>` cells, and every key is bound to the cleaned text of the LAST
`<td>` of the row. -/
theorem table_info_cross_product (h : Helper)
    (m : List (Option String × Option String)) (hm : m ∈ table_info h) :
    ∃ row, m = rowDict row ∧ m.length ≤ (thsOf row).length ∧
      ∀ p ∈ m, ∃ c, (tdsOf row).getLast? = some c ∧ p.2 = tag_text c := by
  unfold table_info at hm
  rcases hfirst : firstTag h "table" with _ | t
  · rw [hfirst] at hm
    simp at hm
  · rw [hfirst] at hm
    dsimp only at hm
    by_cases hrows : (findAllNamed "tr" (descsN t)).isEmpty
    · rw [if_pos hrows] at hm
      simp at hm
    · rw [if_neg hrows] at hm
      obtain ⟨row, _, hrow⟩ := List.mem_map.mp hm
      refine ⟨row, hrow.symm, ?_, ?_⟩
      · rw [← hrow]
        exact rowDict_length_le row
      · intro p hp
        rw [← hrow] at hp
        exact rowDict_values row hp

/-- C7 (witness): the theorem at a concrete table with one row of 2
headers and 3 data cells: both keys are bound to the last cell `D3`. -/
theorem table_info_cross_product_w :
    ∃ row, [(some "H1", some "D3"), (some "H2", some "D3")] = rowDict row ∧
      [(some "H1", some "D3"), (some "H2", some "D3")].length ≤ (thsOf row).length ∧
      ∀ p ∈ [(some "H1", some "D3"), (some "H2", some "D3")],
        ∃ c, (tdsOf row).getLast? = some c ∧ p.2 = tag_text c :=
  table_info_cross_product c7doc _ (by
    rw [show table_info c7doc =
      [[(some "H1", some "D3"), (some "H2", some "D3")]] from rfl]
    simp)

/-- C8 (counterexample): for the Document URL `http://example.com/page`
(scheme `http`), the relative href `/a/b` resolves to
`https://example.com/a/b` — the resolver hardcodes the `https` scheme
instead of using the Document's scheme as the claim demands. -/
theorem absolute_href_scheme_cx :
    absolute_href_of c8doc (Source.tag c8anchor) false =
        some "https://example.com/a/b" ∧
      absolute_href_of c8doc (Source.tag c8anchor) false ≠
        some "http://example.com/a/b" := by
  refine ⟨rfl, fun hcontra => ?_⟩
  rw [show absolute_href_of c8doc (Source.tag c8anchor) false =
      some "https://example.com/a/b" from rfl] at hcontra
  simp at hcontra

/-- C8 (amended): for an anchor with a relative reference (no `"http"`
substring), the resolver returns the absent result when the reference does
not start with `/`, and otherwise returns `"https://"` plus the Document's
domain (with `"www."` removed) plus the reference — the scheme is always
`https`, regardless of the Document URL's scheme. -/
theorem absolute_href_relative (h : Helper) (attrs : List (String × String))
    (children : List Node) (l : String) (b : Bool)
    (hhttp : hasDirectHttpChild (Node.element "a" attrs children) = false)
    (hhref : attrGet attrs "href" = some l)
    (hrel : pyIn "http" l = false) :
    absolute_href_of h (Source.tag (Node.element "a" attrs children)) b =
      if l.data.headD ' ' = '/' then
        some ("https://" ++ pyReplace (netloc h.url) "www." "" ++ l)
      else none := by
  have hlink : tagLink (Node.element "a" attrs children) = some l := by
    unfold tagLink
    have hcond : (Node.element "a" attrs children).nameOf ∈ ["a", "link"] ∧
        ¬ hasDirectHttpChild (Node.element "a" attrs children) = true := by
      refine ⟨by simp [Node.nameOf], by simp [hhttp]⟩
    rw [if_pos hcond]
    exact hhref
  by_cases hl : l = ""
  · subst hl
    rw [if_neg (by decide)]
    simp [absolute_href_of, pyTruthySource, hlink]
  · by_cases hhd : l.data.headD ' ' = '/'
    · rw [if_pos hhd]
      simp [absolute_href_of, pyTruthySource, hlink, hrel, hl, hhd]
      simpa using hhd
    · rw [if_neg hhd]
      simp [absolute_href_of, pyTruthySource, hlink, hrel, hl, hhd]
      simpa using hhd

/-- C8 (witness): the amended theorem at the concrete anchor `/a/b` on the
`http://example.com/page` document. -/
theorem absolute_href_relative_w :
    absolute_href_of c8doc (Source.tag c8anchor) true =
      if "/a/b".data.headD ' ' = '/' then
        some ("https://" ++ pyReplace (netloc c8doc.url) "www." "" ++ "/a/b")
      else none :=
  absolute_href_relative c8doc [("href", "/a/b")] [] "/a/b" true rfl rfl
    (by decide)

/-- C9: when more than 7 `<div>` elements carry a class containing `"cat"`
or `"tag"`, the class-based candidate set is discarded entirely and the
topic-tag candidates come from the breadcrumb containers (and the
article's `<ul>`) alone. -/
theorem possible_topic_tags_noise (h : Helper)
    (hh : 7 < ((descsL h.soup).filter (fun n =>
        (isNamedElem "div" n && attrContains "class" "cat" n)
          || (isNamedElem "div" n && attrContains "class" "tag" n))).length) :
    class_maybe h = [] ∧
      possible_topic_tags h = bread_a_tags h ++ article_ul_a h := by
  have hcat : class_cat h = (descsL h.soup).filter
      (fun n => isNamedElem "div" n && attrContains "class" "cat" n) := by
    unfold class_cat cssContains
    apply List.filter_congr
    intro n _
    simp
  have htag : class_tagd h = (descsL h.soup).filter
      (fun n => isNamedElem "div" n && attrContains "class" "tag" n) := by
    unfold class_tagd cssContains
    apply List.filter_congr
    intro n _
    simp
  have hgt : 7 < (class_cat h ++ class_tagd h).length := by
    rw [List.length_append, hcat, htag]
    have hle := by
      simpa using filter_or_length_le
        (fun n => isNamedElem "div" n && attrContains "class" "cat" n)
        (fun n => isNamedElem "div" n && attrContains "class" "tag" n)
        (descsL h.soup)
    omega
  have hcm : class_maybe h = [] := by
    unfold class_maybe
    rw [if_pos hgt]
  refine ⟨hcm, ?_⟩
  unfold possible_topic_tags container_a_tags bread_a_tags
  rw [hcm, List.append_nil]

/-- C9 (witness): the theorem at a concrete page with 8 `cat`-class divs
and one breadcrumb container: only the breadcrumb anchor survives. -/
theorem possible_topic_tags_noise_w :
    7 < ((descsL c9doc.soup).filter (fun n =>
        (isNamedElem "div" n && attrContains "class" "cat" n)
          || (isNamedElem "div" n && attrContains "class" "tag" n))).length ∧
      class_maybe c9doc = [] ∧
      possible_topic_tags c9doc = bread_a_tags c9doc ++ article_ul_a c9doc :=
  ⟨by decide, possible_topic_tags_noise c9doc (by decide)⟩

end Ezweb
